import Mathlib

/-!
Verification of the SMQTK-Descriptors core: the `DescriptorElement`
abstraction (`smqtk_descriptors/interfaces/descriptor_element.py`) and the
`MemoryDescriptorSet` write-through-cache behaviour.

Shallow embedding conventions:
* descriptor vectors are modelled elementwise as `List Int` (`numpy` 1-D
  arrays; only elementwise equality matters here, never float arithmetic);
* an absent vector (`None`) is `Option.none`;
* hashable uuid keys are modelled as `Nat`;
* the concrete runtime Python class of an element (used by
  `get_many_vectors` for batching via `type(descriptor_)`) is a `Nat` tag;
* Python dictionaries are association lists with Python-dict insert
  semantics (update in place if the key exists, else append);
* code that can raise returns `Except String` carrying the Python
  exception name.
-/

namespace SMQTK

/-- A hashable uuid key (`Hashable` in the Python source). -/
abbrev Key := Nat

/-- A descriptor vector: a 1-D numpy array modelled elementwise. -/
abbrev Vec := List Int

/-- The observable state of a `DescriptorElement` instance: the two fields
set by `__init__` (`_type_label`, `_uuid`), the concrete runtime class of
the instance (`type(...)` in Python, used for batching), and what its
abstract `vector()` method returns (`none` = no vector stored). -/
structure DescriptorElement where
  type_label : String
  uuid_key : Key
  cls : Nat
  vec : Option Vec
deriving DecidableEq

namespace DescriptorElement

/-- `DescriptorElement.uuid`: `return self._uuid`. -/
def uuid (e : DescriptorElement) : Key := e.uuid_key

/-- `DescriptorElement.type`: `return self._type_label`. -/
def type (e : DescriptorElement) : String := e.type_label

end DescriptorElement

/-- A Python value handed to `__eq__`: either a `DescriptorElement` or any
other (non-element) value, the latter tagged by a `Nat` so that there are
many distinct non-element values. -/
inductive PyValue where
  | elem : DescriptorElement → PyValue
  | other : Nat → PyValue

/-- `numpy.array_equal` applied to the two `Optional[numpy.ndarray]`
results of `vector()`: `array_equal(None, None)` is true (both coerce to
equal 0-d object arrays), `array_equal(None, arr)` is false (shape
mismatch), and two 1-D arrays are equal iff same length and elementwise
equal, i.e. list equality. -/
def array_equal : Option Vec → Option Vec → Bool
  | none, none => true
  | none, some _ => false
  | some _, none => false
  | some a, some b => a = b

/-- `DescriptorElement.__eq__`: `isinstance` check, then
`numpy.array_equal(self.vector(), other.vector())`. -/
def DescriptorElement.eq (a : DescriptorElement) : PyValue → Bool
  | .elem b => array_equal a.vec b.vec
  | .other _ => false

/-- `DescriptorElement.__hash__`: `hash(self.uuid())`, for any ambient
Python hash function `h` on keys. -/
def DescriptorElement.hashVal (h : Key → Int) (e : DescriptorElement) : Int :=
  h e.uuid

/-- A value stored in a Python dictionary handled by this interface (the
`__getstate__` state and configuration dictionaries): a type label
string, a uuid key, or an opaque JSON-ish configuration payload. -/
inductive PyVal where
  | str : String → PyVal
  | key : Key → PyVal
  | num : Nat → PyVal
deriving DecidableEq

/-- `DescriptorElement.__getstate__`: the dictionary
`{"_type_label": ..., "_uuid": ...}` as an association list. -/
def DescriptorElement.getstate (e : DescriptorElement) : List (String × PyVal) :=
  [("_type_label", .str e.type_label), ("_uuid", .key e.uuid_key)]

/-- Association-list lookup with decidable key equality (the first entry
with the given key wins, which matches Python dicts since they never hold
a duplicate key). -/
def alookup {K V : Type} [DecidableEq K] (k : K) : List (K × V) → Option V
  | [] => none
  | p :: rest => if p.1 = k then some p.2 else alookup k rest

/-- `DescriptorElement.__setstate__`: reads `state['_type_label']` and
`state['_uuid']` and assigns the two instance fields; `none` models the
`KeyError` raised when a key is missing (or the value is not of the
field's kind). -/
def DescriptorElement.setstate (e : DescriptorElement)
    (st : List (String × PyVal)) : Option DescriptorElement :=
  match alookup "_type_label" st, alookup "_uuid" st with
  | some (.str t), some (.key u) => some { e with type_label := t, uuid_key := u }
  | _, _ => none

/-- Whether an association list holds the given key (`k in d` for a
Python dict). -/
def hasKey {K V : Type} [DecidableEq K] (k : K) : List (K × V) → Bool
  | [] => false
  | p :: rest => p.1 = k || hasKey k rest

/-- Python dict assignment `d[k] = v`: if the key exists its entry is
updated in place (keeping its position), otherwise the pair is appended
(insertion order). -/
def dictSet {K V : Type} [DecidableEq K] (m : List (K × V)) (k : K) (v : V) :
    List (K × V) :=
  if hasKey k m then m.map (fun p => if p.1 = k then (k, v) else p)
  else m ++ [(k, v)]

/-- The `enumerate(descriptors)` pairs starting at index `i`. -/
def idxPairs (i : Nat) : List DescriptorElement → List (Nat × DescriptorElement)
  | [] => []
  | d :: ds => (i, d) :: idxPairs (i + 1) ds

/-- The `uuid_indices` dict of `get_many_vectors`: built by
`uuid_indices[descriptor_.uuid()] = index` over `enumerate(descriptors)`,
so a duplicated uuid keeps the later index (last write wins). -/
def uuidIndices (ds : List DescriptorElement) : List (Key × Nat) :=
  (idxPairs 0 ds).foldl (fun m p => dictSet m p.2.uuid p.1) []

/-- One step of building `batch_dictionary`:
`batch_dictionary[type(descriptor_)].append(descriptor_)` on a
`defaultdict(list)` — append to the class's batch if present, else start a
new singleton batch at the end (dict insertion order). -/
def addToBatch (c : Nat) (d : DescriptorElement) :
    List (Nat × List DescriptorElement) → List (Nat × List DescriptorElement)
  | [] => [(c, [d])]
  | (c', b) :: rest =>
      if c' = c then (c', b ++ [d]) :: rest else (c', b) :: addToBatch c d rest

/-- The `batch_dictionary` of `get_many_vectors`: elements grouped by
concrete runtime class, classes in order of first appearance, each batch
in encounter order. -/
def batchDict (ds : List DescriptorElement) : List (Nat × List DescriptorElement) :=
  ds.foldl (fun m d => addToBatch d.cls d m) []

/-- The inner loop of `get_many_vectors`:
`ordered_vectors[uuid_indices[uuid]] = vector` for each `(uuid, vector)`
pair a class's `_get_many_vectors` yields; a uuid absent from
`uuid_indices` raises `KeyError`. -/
def writePairs (idx : List (Key × Nat)) :
    List (Key × Option Vec) → List (Option Vec) → Except String (List (Option Vec))
  | [], acc => .ok acc
  | (u, v) :: rest, acc =>
      match alookup u idx with
      | none => .error "KeyError"
      | some i => writePairs idx rest (acc.set i v)

/-- The outer loop of `get_many_vectors` over
`batch_dictionary.items()`, feeding each class's batch to that class's
`_get_many_vectors` (abstracted as `fetch`). -/
def runBatches (idx : List (Key × Nat))
    (fetch : Nat → List DescriptorElement → List (Key × Option Vec)) :
    List (Nat × List DescriptorElement) → List (Option Vec) →
      Except String (List (Option Vec))
  | [], acc => .ok acc
  | (c, b) :: rest, acc =>
      match writePairs idx (fetch c b) acc with
      | .error e => .error e
      | .ok acc' => runBatches idx fetch rest acc'

/-- `DescriptorElement.get_many_vectors`, for an abstract per-class
`_get_many_vectors` implementation `fetch`. `ordered_vectors` starts as
`[None] * (index + 1)` where `index` is the last value of the enumeration
counter (`-1` on empty input), i.e. a `none` for every element consumed. -/
def get_many_vectors (fetch : Nat → List DescriptorElement → List (Key × Option Vec))
    (ds : List DescriptorElement) : Except String (List (Option Vec)) :=
  runBatches (uuidIndices ds) fetch (batchDict ds)
    (List.replicate ds.length (none : Option Vec))

/-- The batch that `get_many_vectors` hands to class `c`: the input
elements of that class, in encounter order. -/
def classBatch (ds : List DescriptorElement) (c : Nat) : List DescriptorElement :=
  ds.filter (fun d => decide (d.cls = c))

/-- Python `del d[k]`: removes the key's entry, raising `KeyError` when
the key is absent. -/
def dictRemove {K V : Type} [DecidableEq K] (k : K) : List (K × V) → List (K × V)
  | [] => []
  | p :: rest => if p.1 = k then dictRemove k rest else p :: dictRemove k rest

/-- `del d[k]` as a fallible operation on the dictionary. -/
def dictDel {K V : Type} [DecidableEq K] (m : List (K × V)) (k : K) :
    Except String (List (K × V)) :=
  if hasKey k m then .ok (dictRemove k m) else .error "KeyError"

/-- `DescriptorElement.get_default_config`: starting from the parent's
generic configuration-discovery result `parent`, perform
`del dc['type_str'], dc['uuid']` (left to right) and return the rest. -/
def get_default_config (parent : List (String × PyVal)) :
    Except String (List (String × PyVal)) :=
  match dictDel parent "type_str" with
  | .error e => .error e
  | .ok dc => dictDel dc "uuid"

/-- `merge_dict(c, config_dict)` with `c = {}`: every entry of the source
dictionary is written into the fresh target dictionary in iteration
order (a copy; the source is untouched). -/
def mergeCopy {K V : Type} [DecidableEq K] (config : List (K × V)) : List (K × V) :=
  config.foldl (fun c p => dictSet c p.1 p.2) []

/-- `DescriptorElement.from_config`: the configuration dictionary actually
handed to the generic constructor-from-config machinery — a fresh copy of
`config_dict` followed by `c['type_str'] = type_str` and
`c['uuid'] = uuid`. -/
def from_config_dict (config : List (String × PyVal)) (type_str : String)
    (uuid : Key) : List (String × PyVal) :=
  dictSet (dictSet (mergeCopy config) "type_str" (.str type_str)) "uuid" (.key uuid)

/-- Modelled from the spec: the serialized byte blob a
`MemoryDescriptorSet` writes to its cache store (the repository's
`MemoryDescriptorSet` implementation is absent from the sources; only its
tests are present). The spec's only contract for the blob is round-trip
fidelity, so it is an injective wrapper around the table. -/
inductive SBytes where
  | pickled : List (Key × DescriptorElement) → SBytes
deriving DecidableEq

/-- Modelled from the spec: deserializing a cache blob reproduces the
serialized table (round-trip fidelity). -/
def deserialize : SBytes → List (Key × DescriptorElement)
  | .pickled t => t

/-- Modelled from the spec: a `MemoryDescriptorSet` — an in-memory
key→element table plus an optional cache byte store. `cache_element`:
`none` = no cache store configured; `some none` = configured but empty
store; `some (some b)` = store holding blob `b`. -/
structure MemoryDescriptorSet where
  table : List (Key × DescriptorElement)
  cache_element : Option (Option SBytes)
deriving DecidableEq

namespace MemoryDescriptorSet

/-- Modelled from the spec: `cache_table()` — re-serialize the current
table into the cache store; a no-op when no cache store is configured.
All mutating operations call this as their final step. -/
def cache_table (s : MemoryDescriptorSet) : MemoryDescriptorSet :=
  match s.cache_element with
  | none => s
  | some _ => { s with cache_element := some (some (.pickled s.table)) }

/-- Modelled from the spec: `add_descriptor` — insert/overwrite the
element under its uuid key, then write-through. -/
def add_descriptor (s : MemoryDescriptorSet) (d : DescriptorElement) :
    MemoryDescriptorSet :=
  cache_table { s with table := dictSet s.table d.uuid d }

/-- Modelled from the spec: `add_many_descriptors` — insert/overwrite all
given elements, then one write-through for the whole batch. -/
def add_many_descriptors (s : MemoryDescriptorSet)
    (ds : List DescriptorElement) : MemoryDescriptorSet :=
  cache_table { s with table := ds.foldl (fun t d => dictSet t d.uuid d) s.table }

/-- Modelled from the spec: `remove_descriptor` — fails with
`KeyNotFoundError` when the key is absent, else removes and
writes through. -/
def remove_descriptor (s : MemoryDescriptorSet) (u : Key) :
    Except String MemoryDescriptorSet :=
  if hasKey u s.table then
    .ok (cache_table { s with table := dictRemove u s.table })
  else .error "KeyNotFoundError"

/-- Modelled from the spec: `remove_many_descriptors` — fails with
`KeyNotFoundError` when any key is absent, else removes all and performs
one write-through for the whole batch. -/
def remove_many_descriptors (s : MemoryDescriptorSet) (us : List Key) :
    Except String MemoryDescriptorSet :=
  if us.all (fun u => hasKey u s.table) then
    .ok (cache_table { s with table := us.foldl (fun t u => dictRemove u t) s.table })
  else .error "KeyNotFoundError"

/-- Modelled from the spec: `clear()` — empty the table and write through
(a serialized empty table, not a deleted store). -/
def clear (s : MemoryDescriptorSet) : MemoryDescriptorSet :=
  cache_table { s with table := [] }

/-- The C8 invariant: the cache store holds bytes (is non-empty) and they
deserialize to the current in-memory table. -/
def cache_synced (s : MemoryDescriptorSet) : Prop :=
  ∃ b, s.cache_element = some (some b) ∧ deserialize b = s.table

end MemoryDescriptorSet

/-- A concrete input element for the C2 witness (runtime class 0). -/
def wd0 : DescriptorElement := ⟨"x", 1, 0, some [1]⟩

/-- A concrete input element for the C2 witness (runtime class 0). -/
def wd1 : DescriptorElement := ⟨"x", 2, 0, some [2]⟩

/-- A concrete input element for the C2 witness (runtime class 1). -/
def wd2 : DescriptorElement := ⟨"y", 3, 1, some [3]⟩

/-- The C2 witness input: two class-0 elements then a class-1 element
(the order-preservation example of the spec). -/
def wds : List DescriptorElement := [wd0, wd1, wd2]

/-- A concrete per-class batch-fetch for the C2 witness: class 0 yields
its pairs out of input order; class 1 reports an absent vector. -/
def wfetch : Nat → List DescriptorElement → List (Key × Option Vec) :=
  fun c _ => if c = 0 then [(2, some [20]), (1, some [10])] else [(3, none)]

/-- C1: `a == b` iff the `vector()` results are elementwise equal (absent
equals only absent), independently of `typeLabel`, `key`, and runtime
class; and an element never equals a non-element value. -/
theorem c1_eq_iff_vector_eq (a b : DescriptorElement) :
    (a.eq (.elem b) = true ↔ a.vec = b.vec) ∧ ∀ n, a.eq (.other n) = false := by
  refine ⟨?_, fun _ => rfl⟩
  cases hva : a.vec <;> cases hvb : b.vec <;>
    simp [DescriptorElement.eq, array_equal, hva, hvb]

/-- C6: `hash(a)` is `hash(a.uuid())` and depends on nothing else, so equal
uuids give equal hashes; and equal uuids do not imply `a == b`. -/
theorem c6_hash_from_uuid (h : Key → Int) (a b : DescriptorElement)
    (huv : a.uuid = b.uuid) :
    a.hashVal h = h a.uuid ∧ a.hashVal h = b.hashVal h ∧
      ∃ c d : DescriptorElement, c.uuid = d.uuid ∧ c.eq (.elem d) = false := by
  refine ⟨rfl, ?_, ?_⟩
  · simp [DescriptorElement.hashVal, huv]
  · exact ⟨⟨"t", 0, 0, some [0]⟩, ⟨"t", 0, 0, some [1]⟩, rfl, by decide⟩

/-- Witness for C6 at concrete inputs. -/
theorem c6_hash_from_uuid_witness :
    DescriptorElement.hashVal (fun k => (k : Int)) ⟨"x", 3, 0, none⟩ =
        (fun k => (k : Int)) (DescriptorElement.uuid ⟨"x", 3, 0, none⟩) ∧
      DescriptorElement.hashVal (fun k => (k : Int)) ⟨"x", 3, 0, none⟩ =
        DescriptorElement.hashVal (fun k => (k : Int)) ⟨"y", 3, 1, some [2]⟩ ∧
      ∃ c d : DescriptorElement, c.uuid = d.uuid ∧ c.eq (.elem d) = false :=
  c6_hash_from_uuid (fun k => (k : Int)) ⟨"x", 3, 0, none⟩ ⟨"y", 3, 1, some [2]⟩ rfl

/-- C7: `__setstate__ ∘ __getstate__` restores exactly the type label and
uuid (whatever instance it is applied to), and the serialized state holds
nothing besides the `_type_label` and `_uuid` entries. -/
theorem c7_state_roundtrip (e e' : DescriptorElement) :
    (∃ e2, e'.setstate e.getstate = some e2 ∧ e2.type = e.type ∧ e2.uuid = e.uuid) ∧
      e.getstate.map Prod.fst = ["_type_label", "_uuid"] := by
  refine ⟨⟨{ e' with type_label := e.type_label, uuid_key := e.uuid_key }, ?_, rfl, rfl⟩, rfl⟩
  simp [DescriptorElement.setstate, DescriptorElement.getstate, alookup]

theorem hasKey_iff {K V : Type} [DecidableEq K] (k : K) (m : List (K × V)) :
    hasKey k m = true ↔ k ∈ m.map Prod.fst := by
  induction m with
  | nil => simp [hasKey]
  | cons p rest ih =>
    simp only [hasKey, Bool.or_eq_true, decide_eq_true_eq, List.map_cons,
      List.mem_cons, ih]
    exact or_congr eq_comm Iff.rfl

theorem alookup_map_update {K V : Type} [DecidableEq K] (m : List (K × V)) (k : K)
    (v : V) (h : hasKey k m = true) :
    alookup k (m.map (fun p => if p.1 = k then (k, v) else p)) = some v := by
  induction m with
  | nil => simp [hasKey] at h
  | cons p rest ih =>
    by_cases hp : p.1 = k
    · simp [alookup, hp]
    · simp only [hasKey, Bool.or_eq_true, decide_eq_true_eq] at h
      rcases h with h | h
      · exact absurd h hp
      · simp [alookup, hp, ih h]

theorem alookup_append_single {K V : Type} [DecidableEq K] (m : List (K × V)) (k : K)
    (v : V) (h : hasKey k m = false) : alookup k (m ++ [(k, v)]) = some v := by
  induction m with
  | nil => simp [alookup]
  | cons p rest ih =>
    simp only [hasKey, Bool.or_eq_false_iff, decide_eq_false_iff_not] at h
    simp [alookup, h.1, ih h.2]

theorem alookup_dictSet_self {K V : Type} [DecidableEq K] (m : List (K × V)) (k : K)
    (v : V) : alookup k (dictSet m k v) = some v := by
  unfold dictSet
  by_cases h : hasKey k m
  · simp only [h, if_true]
    exact alookup_map_update m k v h
  · simp only [Bool.not_eq_true] at h
    simp only [h, Bool.false_eq_true, if_false]
    exact alookup_append_single m k v h

theorem alookup_map_update_ne {K V : Type} [DecidableEq K] (m : List (K × V))
    (k : K) (v : V) (k' : K) (h : k' ≠ k) :
    alookup k' (m.map (fun p => if p.1 = k then (k, v) else p)) = alookup k' m := by
  induction m with
  | nil => simp [alookup]
  | cons p rest ih =>
    by_cases hp : p.1 = k
    · have h1 : ¬(k = k') := fun he => h he.symm
      have h2 : ¬(p.1 = k') := fun he => h1 (hp ▸ he)
      simp only [List.map_cons, hp, if_true, alookup, h1, h2, if_false]
      exact ih
    · simp [alookup, hp, ih]

theorem alookup_append_single_ne {K V : Type} [DecidableEq K] (m : List (K × V))
    (k : K) (v : V) (k' : K) (h : k' ≠ k) :
    alookup k' (m ++ [(k, v)]) = alookup k' m := by
  induction m with
  | nil =>
    have h1 : ¬(k = k') := fun he => h he.symm
    simp [alookup, h1]
  | cons p rest ih => by_cases hp : p.1 = k' <;> simp [alookup, hp, ih]

theorem alookup_dictSet_ne {K V : Type} [DecidableEq K] (m : List (K × V)) (k : K)
    (v : V) (k' : K) (h : k' ≠ k) : alookup k' (dictSet m k v) = alookup k' m := by
  unfold dictSet
  by_cases hk : hasKey k m
  · simp only [hk, if_true]
    exact alookup_map_update_ne m k v k' h
  · simp only [hk, Bool.false_eq_true, if_false]
    exact alookup_append_single_ne m k v k' h

theorem idxPairs_append (i : Nat) (l : List DescriptorElement) (d : DescriptorElement) :
    idxPairs i (l ++ [d]) = idxPairs i l ++ [(i + l.length, d)] := by
  induction l generalizing i with
  | nil => simp [idxPairs]
  | cons e rest ih =>
    have hn : i + 1 + rest.length = i + (rest.length + 1) := by omega
    simp only [List.cons_append, idxPairs, List.append_eq, ih, List.length_cons, hn]

theorem uuidIndices_append (ds : List DescriptorElement) (d : DescriptorElement) :
    uuidIndices (ds ++ [d]) = dictSet (uuidIndices ds) d.uuid ds.length := by
  unfold uuidIndices
  rw [idxPairs_append, List.foldl_append]
  simp only [List.foldl_cons, List.foldl_nil, Nat.zero_add]

theorem uuidIndices_some (ds : List DescriptorElement) (u : Key) (i : Nat)
    (h : alookup u (uuidIndices ds) = some i) :
    ∃ e, ds.get? i = some e ∧ e.uuid = u := by
  induction ds using List.reverseRecOn with
  | nil => simp [uuidIndices, idxPairs, alookup] at h
  | append_singleton ds d ih =>
    rw [uuidIndices_append] at h
    by_cases hu : u = d.uuid
    · rw [hu, alookup_dictSet_self] at h
      obtain rfl : ds.length = i := by injection h
      exact ⟨d, List.get?_concat_length ds d, hu.symm⟩
    · rw [alookup_dictSet_ne _ _ _ _ hu] at h
      obtain ⟨e, he, hue⟩ := ih h
      obtain ⟨hlt, -⟩ := List.get?_eq_some.mp he
      exact ⟨e, by rw [List.get?_append hlt]; exact he, hue⟩

theorem uuidIndices_last (ds : List DescriptorElement) (u : Key) (j : Nat)
    (e : DescriptorElement) (hj : ds.get? j = some e) (hju : e.uuid = u)
    (hlast : ∀ k e', j < k → ds.get? k = some e' → e'.uuid ≠ u) :
    alookup u (uuidIndices ds) = some j := by
  induction ds using List.reverseRecOn with
  | nil => simp at hj
  | append_singleton ds d ih =>
    rw [uuidIndices_append]
    by_cases hu : u = d.uuid
    · have hjlen : j = ds.length := by
        rcases Nat.lt_trichotomy j ds.length with hlt | heq | hgt
        · exact absurd hu.symm (hlast ds.length d hlt (List.get?_concat_length ds d))
        · exact heq
        · obtain ⟨hb, -⟩ := List.get?_eq_some.mp hj
          simp only [List.length_append, List.length_singleton] at hb
          omega
      rw [hu, hjlen, alookup_dictSet_self]
    · rw [alookup_dictSet_ne _ _ _ _ hu]
      obtain ⟨hb, -⟩ := List.get?_eq_some.mp hj
      simp only [List.length_append, List.length_singleton] at hb
      have hjne : j ≠ ds.length := by
        intro hjl
        rw [hjl, List.get?_concat_length] at hj
        obtain rfl : d = e := by injection hj
        exact hu (hju.symm)
      have hjlt : j < ds.length := by omega
      refine ih ?_ ?_
      · rw [← List.get?_append hjlt]
        exact hj
      · intro k e' hk hke'
        obtain ⟨hkb, -⟩ := List.get?_eq_some.mp hke'
        refine hlast k e' hk ?_
        rw [List.get?_append hkb]
        exact hke'

theorem uuidIndices_eq_none (ds : List DescriptorElement) (u : Key)
    (h : ∀ e ∈ ds, e.uuid ≠ u) : alookup u (uuidIndices ds) = none := by
  cases halt : alookup u (uuidIndices ds) with
  | none => rfl
  | some i =>
    obtain ⟨e, he, hue⟩ := uuidIndices_some ds u i halt
    exact absurd hue (h e (List.get?_mem he))

theorem uuidIndices_isSome_of_mem (ds : List DescriptorElement) (u : Key)
    (h : u ∈ ds.map DescriptorElement.uuid) :
    (alookup u (uuidIndices ds)).isSome := by
  induction ds using List.reverseRecOn with
  | nil => simp at h
  | append_singleton ds d ih =>
    rw [uuidIndices_append]
    by_cases hu : u = d.uuid
    · rw [hu, alookup_dictSet_self]
      rfl
    · rw [alookup_dictSet_ne _ _ _ _ hu]
      apply ih
      simp only [List.map_append, List.map_cons, List.map_nil, List.mem_append,
        List.mem_cons, List.not_mem_nil, or_false] at h
      rcases h with h | h
      · exact h
      · exact absurd h hu

theorem uuidIndices_none_of_not_mem (ds : List DescriptorElement) (u : Key)
    (h : u ∉ ds.map DescriptorElement.uuid) :
    alookup u (uuidIndices ds) = none := by
  refine uuidIndices_eq_none ds u ?_
  intro e he hue
  exact h (hue ▸ List.mem_map_of_mem DescriptorElement.uuid he)

theorem writePairs_error_name (idx : List (Key × Nat))
    (pairs : List (Key × Option Vec)) (acc : List (Option Vec)) (e : String)
    (h : writePairs idx pairs acc = .error e) : e = "KeyError" := by
  induction pairs generalizing acc with
  | nil => simp [writePairs] at h
  | cons p rest ih =>
    rw [writePairs] at h
    cases halt : alookup p.1 idx with
    | none =>
      rw [halt] at h
      injection h with h
      exact h.symm
    | some i =>
      rw [halt] at h
      exact ih _ h

theorem writePairs_length (idx : List (Key × Nat))
    (pairs : List (Key × Option Vec)) (acc out : List (Option Vec))
    (h : writePairs idx pairs acc = .ok out) : out.length = acc.length := by
  induction pairs generalizing acc with
  | nil =>
    rw [writePairs] at h
    injection h with h
    rw [← h]
  | cons p rest ih =>
    rw [writePairs] at h
    cases halt : alookup p.1 idx with
    | none => rw [halt] at h; exact absurd h (by simp)
    | some i =>
      rw [halt] at h
      rw [ih _ h, List.length_set]

theorem writePairs_isSome_ok (idx : List (Key × Nat))
    (pairs : List (Key × Option Vec)) (acc : List (Option Vec))
    (h : ∀ p ∈ pairs, (alookup p.1 idx).isSome) :
    ∃ out, writePairs idx pairs acc = .ok out := by
  induction pairs generalizing acc with
  | nil => exact ⟨acc, rfl⟩
  | cons p rest ih =>
    rw [writePairs]
    cases halt : alookup p.1 idx with
    | none =>
      have := h p (List.mem_cons_self p rest)
      rw [halt] at this
      simp at this
    | some i => exact ih _ (fun q hq => h q (List.mem_cons_of_mem p hq))

theorem writePairs_error_of_none (idx : List (Key × Nat))
    (pairs : List (Key × Option Vec)) (acc : List (Option Vec))
    (h : ∃ p ∈ pairs, alookup p.1 idx = none) :
    writePairs idx pairs acc = .error "KeyError" := by
  induction pairs generalizing acc with
  | nil => simp at h
  | cons q rest ih =>
    rw [writePairs]
    cases halt : alookup q.1 idx with
    | none => rfl
    | some i =>
      obtain ⟨p, hp, hpn⟩ := h
      rcases List.mem_cons.mp hp with rfl | hp
      · rw [halt] at hpn
        injection hpn
      · exact ih _ ⟨p, hp, hpn⟩

theorem writePairs_untouched (idx : List (Key × Nat))
    (pairs : List (Key × Option Vec)) (acc out : List (Option Vec)) (i : Nat)
    (h : writePairs idx pairs acc = .ok out)
    (hni : ∀ p ∈ pairs, alookup p.1 idx ≠ some i) :
    out.get? i = acc.get? i := by
  induction pairs generalizing acc with
  | nil =>
    rw [writePairs] at h
    injection h with h
    rw [h]
  | cons p rest ih =>
    rw [writePairs] at h
    cases halt : alookup p.1 idx with
    | none => rw [halt] at h; exact absurd h (by simp)
    | some m =>
      rw [halt] at h
      have hmi : m ≠ i := by
        intro hmi
        exact hni p (List.mem_cons_self p rest) (hmi ▸ halt)
      rw [ih _ h (fun q hq => hni q (List.mem_cons_of_mem p hq))]
      exact List.get?_set_ne _ _ hmi

theorem writePairs_last_write (idx : List (Key × Nat))
    (l1 l2 : List (Key × Option Vec)) (u : Key) (v : Option Vec)
    (acc out : List (Option Vec)) (i : Nat)
    (hu : alookup u idx = some i) (hl2 : ∀ p ∈ l2, alookup p.1 idx ≠ some i)
    (hi : i < acc.length) (h : writePairs idx (l1 ++ (u, v) :: l2) acc = .ok out) :
    out.get? i = some v := by
  induction l1 generalizing acc with
  | nil =>
    rw [List.nil_append, writePairs, hu] at h
    rw [writePairs_untouched idx l2 _ out i h hl2]
    exact List.get?_set_eq_of_lt v hi
  | cons q l1 ih =>
    rw [List.cons_append, writePairs] at h
    cases halt : alookup q.1 idx with
    | none => rw [halt] at h; exact absurd h (by simp)
    | some m =>
      rw [halt] at h
      exact ih _ (by rw [List.length_set]; exact hi) h

theorem runBatches_length (idx : List (Key × Nat))
    (fetch : Nat → List DescriptorElement → List (Key × Option Vec))
    (B : List (Nat × List DescriptorElement)) (acc r : List (Option Vec))
    (h : runBatches idx fetch B acc = .ok r) : r.length = acc.length := by
  induction B generalizing acc with
  | nil =>
    rw [runBatches] at h
    injection h with h
    rw [← h]
  | cons cb rest ih =>
    obtain ⟨c, b⟩ := cb
    rw [runBatches] at h
    cases hw : writePairs idx (fetch c b) acc with
    | error e => rw [hw] at h; exact absurd h (by simp)
    | ok acc' =>
      rw [hw] at h
      rw [ih _ h, writePairs_length _ _ _ _ hw]

theorem runBatches_isSome_ok (idx : List (Key × Nat))
    (fetch : Nat → List DescriptorElement → List (Key × Option Vec))
    (B : List (Nat × List DescriptorElement)) (acc : List (Option Vec))
    (h : ∀ cb ∈ B, ∀ p ∈ fetch cb.1 cb.2, (alookup p.1 idx).isSome) :
    ∃ r, runBatches idx fetch B acc = .ok r := by
  induction B generalizing acc with
  | nil => exact ⟨acc, rfl⟩
  | cons cb rest ih =>
    obtain ⟨c, b⟩ := cb
    rw [runBatches]
    obtain ⟨acc', hacc'⟩ := writePairs_isSome_ok idx (fetch c b) acc
      (h (c, b) (List.mem_cons_self _ _))
    rw [hacc']
    exact ih acc' (fun cb hcb => h cb (List.mem_cons_of_mem _ hcb))

theorem runBatches_untouched (idx : List (Key × Nat))
    (fetch : Nat → List DescriptorElement → List (Key × Option Vec))
    (B : List (Nat × List DescriptorElement)) (acc r : List (Option Vec)) (i : Nat)
    (h : runBatches idx fetch B acc = .ok r)
    (hni : ∀ cb ∈ B, ∀ p ∈ fetch cb.1 cb.2, alookup p.1 idx ≠ some i) :
    r.get? i = acc.get? i := by
  induction B generalizing acc with
  | nil =>
    rw [runBatches] at h
    injection h with h
    rw [h]
  | cons cb rest ih =>
    obtain ⟨c, b⟩ := cb
    rw [runBatches] at h
    cases hw : writePairs idx (fetch c b) acc with
    | error e => rw [hw] at h; exact absurd h (by simp)
    | ok acc' =>
      rw [hw] at h
      rw [ih acc' h (fun cb hcb => hni cb (List.mem_cons_of_mem _ hcb))]
      exact writePairs_untouched idx _ acc acc' i hw
        (hni (c, b) (List.mem_cons_self _ _))

theorem runBatches_error_of_none (idx : List (Key × Nat))
    (fetch : Nat → List DescriptorElement → List (Key × Option Vec))
    (B : List (Nat × List DescriptorElement)) (acc : List (Option Vec))
    (hex : ∃ cb ∈ B, ∃ p ∈ fetch cb.1 cb.2, alookup p.1 idx = none) :
    runBatches idx fetch B acc = .error "KeyError" := by
  induction B generalizing acc with
  | nil => simp at hex
  | cons cb rest ih =>
    obtain ⟨c, b⟩ := cb
    rw [runBatches]
    cases hw : writePairs idx (fetch c b) acc with
    | error e => rw [writePairs_error_name _ _ _ _ hw]
    | ok acc' =>
      rcases hex with ⟨cb', hcb', p, hp, hpn⟩
      rcases List.mem_cons.mp hcb' with heq | hcb'
      · subst heq
        have herr := writePairs_error_of_none idx (fetch c b) acc ⟨p, hp, hpn⟩
        rw [herr] at hw
        exact absurd hw (by simp)
      · exact ih _ ⟨cb', hcb', p, hp, hpn⟩

theorem runBatches_write (idx : List (Key × Nat))
    (fetch : Nat → List DescriptorElement → List (Key × Option Vec))
    (B1 B2 : List (Nat × List DescriptorElement)) (c : Nat)
    (b : List DescriptorElement) (l1 l2 : List (Key × Option Vec)) (u : Key)
    (v : Option Vec) (i : Nat) (acc r : List (Option Vec))
    (hfetch : fetch c b = l1 ++ (u, v) :: l2)
    (hu : alookup u idx = some i)
    (hl2 : ∀ p ∈ l2, alookup p.1 idx ≠ some i)
    (hB1 : ∀ cb ∈ B1, ∀ p ∈ fetch cb.1 cb.2, alookup p.1 idx ≠ some i)
    (hB2 : ∀ cb ∈ B2, ∀ p ∈ fetch cb.1 cb.2, alookup p.1 idx ≠ some i)
    (hi : i < acc.length)
    (h : runBatches idx fetch (B1 ++ (c, b) :: B2) acc = .ok r) :
    r.get? i = some v := by
  induction B1 generalizing acc with
  | nil =>
    rw [List.nil_append, runBatches] at h
    cases hw : writePairs idx (fetch c b) acc with
    | error e => rw [hw] at h; exact absurd h (by simp)
    | ok acc' =>
      rw [hw] at h
      rw [runBatches_untouched idx fetch B2 acc' r i h hB2]
      rw [hfetch] at hw
      exact writePairs_last_write idx l1 l2 u v acc acc' i hu hl2 hi hw
  | cons cb B1 ih =>
    obtain ⟨c0, b0⟩ := cb
    rw [List.cons_append, runBatches] at h
    cases hw : writePairs idx (fetch c0 b0) acc with
    | error e => rw [hw] at h; exact absurd h (by simp)
    | ok acc' =>
      rw [hw] at h
      refine ih acc' (fun cb hcb => hB1 cb (List.mem_cons_of_mem _ hcb)) ?_ h
      rw [writePairs_length _ _ _ _ hw]
      exact hi

theorem alookup_split {K V : Type} [DecidableEq K] (k : K) (v : V)
    (m : List (K × V)) (h : alookup k m = some v) :
    ∃ l1 l2, m = l1 ++ (k, v) :: l2 ∧ k ∉ l1.map Prod.fst := by
  induction m with
  | nil => simp [alookup] at h
  | cons p rest ih =>
    obtain ⟨pk, pv⟩ := p
    rw [alookup] at h
    by_cases hp : pk = k
    · simp only [hp, if_true] at h
      injection h with h
      exact ⟨[], rest, by rw [hp, h, List.nil_append], by simp⟩
    · simp only [hp, if_false] at h
      obtain ⟨l1, l2, hm, hk⟩ := ih h
      refine ⟨(pk, pv) :: l1, l2, by rw [hm, List.cons_append], ?_⟩
      simp only [List.map_cons, List.mem_cons, not_or]
      exact ⟨fun he => hp he.symm, hk⟩

theorem not_mem_keys_right {K V : Type} [DecidableEq K] (l1 l2 : List (K × V))
    (k : K) (v : V) (hnd : ((l1 ++ (k, v) :: l2).map Prod.fst).Nodup) :
    k ∉ l2.map Prod.fst := by
  rw [List.map_append, List.map_cons] at hnd
  have h2 := List.Nodup.of_append_right hnd
  exact (List.nodup_cons.mp h2).1

theorem addToBatch_lookup_self_some (c : Nat) (d : DescriptorElement)
    (m : List (Nat × List DescriptorElement)) (b : List DescriptorElement)
    (h : alookup c m = some b) : alookup c (addToBatch c d m) = some (b ++ [d]) := by
  induction m with
  | nil => simp [alookup] at h
  | cons p rest ih =>
    obtain ⟨c', b'⟩ := p
    rw [alookup] at h
    rw [addToBatch]
    by_cases hc : c' = c
    · simp only [hc, if_true] at h ⊢
      injection h with h
      rw [alookup, if_pos rfl, h]
    · simp only [hc, if_false] at h ⊢
      rw [alookup, if_neg hc]
      exact ih h

theorem addToBatch_lookup_self_none (c : Nat) (d : DescriptorElement)
    (m : List (Nat × List DescriptorElement)) (h : alookup c m = none) :
    alookup c (addToBatch c d m) = some [d] := by
  induction m with
  | nil => simp [addToBatch, alookup]
  | cons p rest ih =>
    obtain ⟨c', b'⟩ := p
    rw [alookup] at h
    rw [addToBatch]
    by_cases hc : c' = c
    · rw [if_pos hc] at h
      exact absurd h (by simp)
    · rw [if_neg hc] at h
      simp only [hc, if_false]
      rw [alookup, if_neg hc]
      exact ih h

theorem addToBatch_lookup_ne (c : Nat) (d : DescriptorElement)
    (m : List (Nat × List DescriptorElement)) (c' : Nat) (h : c' ≠ c) :
    alookup c' (addToBatch c d m) = alookup c' m := by
  induction m with
  | nil =>
    have h1 : ¬(c = c') := fun he => h he.symm
    simp [addToBatch, alookup, h1]
  | cons p rest ih =>
    obtain ⟨c0, b0⟩ := p
    rw [addToBatch]
    by_cases hc : c0 = c
    · rw [if_pos hc]
      have h2 : ¬(c0 = c') := fun he => h (he ▸ hc)
      rw [alookup, if_neg h2, alookup, if_neg h2]
    · rw [if_neg hc]
      rw [alookup, alookup]
      by_cases h3 : c0 = c' <;> simp [h3, ih]

theorem addToBatch_keys_of_hasKey (c : Nat) (d : DescriptorElement)
    (m : List (Nat × List DescriptorElement)) (h : hasKey c m = true) :
    (addToBatch c d m).map Prod.fst = m.map Prod.fst := by
  induction m with
  | nil => simp [hasKey] at h
  | cons p rest ih =>
    obtain ⟨c0, b0⟩ := p
    rw [addToBatch]
    by_cases hc : c0 = c
    · rw [if_pos hc]
      simp
    · rw [if_neg hc]
      simp only [hasKey, Bool.or_eq_true, decide_eq_true_eq] at h
      rcases h with h | h
      · exact absurd h hc
      · simp [ih h]

theorem addToBatch_keys_of_not (c : Nat) (d : DescriptorElement)
    (m : List (Nat × List DescriptorElement)) (h : hasKey c m = false) :
    (addToBatch c d m).map Prod.fst = m.map Prod.fst ++ [c] := by
  induction m with
  | nil => simp [addToBatch]
  | cons p rest ih =>
    obtain ⟨c0, b0⟩ := p
    simp only [hasKey, Bool.or_eq_false_iff, decide_eq_false_iff_not] at h
    rw [addToBatch, if_neg h.1]
    simp [ih h.2]

theorem batchDict_append (ds : List DescriptorElement) (d : DescriptorElement) :
    batchDict (ds ++ [d]) = addToBatch d.cls d (batchDict ds) := by
  unfold batchDict
  rw [List.foldl_append]
  simp only [List.foldl_cons, List.foldl_nil]

theorem classBatch_append (ds : List DescriptorElement) (d : DescriptorElement)
    (c : Nat) : classBatch (ds ++ [d]) c =
      classBatch ds c ++ (if d.cls = c then [d] else []) := by
  unfold classBatch
  rw [List.filter_append]
  congr 1
  by_cases hc : d.cls = c <;> simp [List.filter, hc]

theorem batchDict_lookup (ds : List DescriptorElement) (c : Nat) :
    alookup c (batchDict ds) =
      if classBatch ds c = [] then none else some (classBatch ds c) := by
  induction ds using List.reverseRecOn with
  | nil => simp [batchDict, classBatch, alookup]
  | append_singleton ds d ih =>
    rw [batchDict_append, classBatch_append]
    by_cases hc : d.cls = c
    · rw [hc, if_pos rfl]
      by_cases he : classBatch ds c = []
      · have h0 : alookup c (batchDict ds) = none := by rw [ih, if_pos he]
        rw [addToBatch_lookup_self_none _ _ _ h0, he]
        simp
      · have h0 : alookup c (batchDict ds) = some (classBatch ds c) := by
          rw [ih, if_neg he]
        rw [addToBatch_lookup_self_some _ _ _ _ h0]
        have hne : classBatch ds c ++ [d] ≠ [] := by simp
        rw [if_neg hne]
    · rw [addToBatch_lookup_ne _ _ _ _ (fun he => hc he.symm), if_neg hc,
        List.append_nil]
      exact ih

theorem batchDict_keys_nodup (ds : List DescriptorElement) :
    ((batchDict ds).map Prod.fst).Nodup := by
  induction ds using List.reverseRecOn with
  | nil => simp [batchDict]
  | append_singleton ds d ih =>
    rw [batchDict_append]
    by_cases hk : hasKey d.cls (batchDict ds) = true
    · rw [addToBatch_keys_of_hasKey _ _ _ hk]
      exact ih
    · rw [addToBatch_keys_of_not _ _ _ (by simpa using hk)]
      have hnm : d.cls ∉ (batchDict ds).map Prod.fst :=
        fun hm => hk ((hasKey_iff _ _).mpr hm)
      simp [List.nodup_append, ih, hnm]

theorem alookup_of_mem_nodup {K V : Type} [DecidableEq K] (m : List (K × V))
    (k : K) (v : V) (hnd : (m.map Prod.fst).Nodup) (hm : (k, v) ∈ m) :
    alookup k m = some v := by
  induction m with
  | nil => simp at hm
  | cons p rest ih =>
    obtain ⟨pk, pv⟩ := p
    rw [List.map_cons, List.nodup_cons] at hnd
    rcases List.mem_cons.mp hm with heq | hm
    · rw [alookup]
      have h1 : pk = k := (congrArg Prod.fst heq).symm
      have h2 : pv = v := (congrArg Prod.snd heq).symm
      rw [if_pos h1, h2]
    · have hkp : ¬(pk = k) := by
        intro he
        subst he
        exact hnd.1 (List.mem_map.mpr ⟨(pk, v), hm, rfl⟩)
      rw [alookup, if_neg hkp]
      exact ih hnd.2 hm

theorem alookup_mem {K V : Type} [DecidableEq K] (m : List (K × V)) (k : K)
    (v : V) (h : alookup k m = some v) : (k, v) ∈ m := by
  induction m with
  | nil => simp [alookup] at h
  | cons p rest ih =>
    obtain ⟨pk, pv⟩ := p
    rw [alookup] at h
    by_cases hp : pk = k
    · rw [if_pos hp] at h
      injection h with h
      rw [← hp, ← h]
      exact List.mem_cons_self _ _
    · rw [if_neg hp] at h
      exact List.mem_cons_of_mem _ (ih h)

theorem batchDict_mem_eq (ds : List DescriptorElement) (c : Nat)
    (b : List DescriptorElement) (h : (c, b) ∈ batchDict ds) :
    b = classBatch ds c ∧ b ≠ [] := by
  have hl := alookup_of_mem_nodup _ _ _ (batchDict_keys_nodup ds) h
  rw [batchDict_lookup] at hl
  by_cases he : classBatch ds c = []
  · rw [if_pos he] at hl
    cases hl
  · rw [if_neg he] at hl
    injection hl with hl
    exact ⟨hl.symm, fun hb => he (hb ▸ hl)⟩

theorem batchDict_mem_of_elem (ds : List DescriptorElement)
    (d : DescriptorElement) (hd : d ∈ ds) :
    (d.cls, classBatch ds d.cls) ∈ batchDict ds := by
  apply alookup_mem
  rw [batchDict_lookup]
  have hmem : d ∈ classBatch ds d.cls := List.mem_filter.mpr ⟨hd, by simp⟩
  rw [if_neg (List.ne_nil_of_mem hmem)]

theorem classBatch_mem (ds : List DescriptorElement) (c : Nat)
    (x : DescriptorElement) (h : x ∈ classBatch ds c) : x ∈ ds ∧ x.cls = c := by
  have hf := List.mem_filter.mp h
  exact ⟨hf.1, by simpa using hf.2⟩

theorem nodup_uuid_get_inj (ds : List DescriptorElement)
    (hnd : (ds.map DescriptorElement.uuid).Nodup) (i k : Nat)
    (e e' : DescriptorElement) (hi : ds.get? i = some e) (hk : ds.get? k = some e')
    (hue : e.uuid = e'.uuid) : i = k := by
  obtain ⟨hil, -⟩ := List.get?_eq_some.mp hi
  refine List.get?_inj (by simpa using hil) hnd ?_
  rw [List.get?_map, List.get?_map, hi, hk]
  simp [hue]

theorem alookup_ne_of_none {K V : Type} [DecidableEq K] (m : List (K × V))
    (k : K) (h : alookup k m = none) (q : K × V) (hq : q ∈ m) : q.1 ≠ k := by
  induction m with
  | nil => simp at hq
  | cons p rest ih =>
    rw [alookup] at h
    by_cases hp : p.1 = k
    · rw [if_pos hp] at h
      exact absurd h (by simp)
    · rw [if_neg hp] at h
      rcases List.mem_cons.mp hq with rfl | hq
      · exact hp
      · exact ih h hq

/-- C5: the list `get_many_vectors` returns has exactly one slot per
consumed input element; an empty input yields the empty list. -/
theorem c5_output_length
    (fetch : Nat → List DescriptorElement → List (Key × Option Vec))
    (ds : List DescriptorElement) :
    (∀ r, get_many_vectors fetch ds = .ok r → r.length = ds.length) ∧
      get_many_vectors fetch [] = .ok [] := by
  constructor
  · intro r h
    rw [get_many_vectors] at h
    rw [runBatches_length _ _ _ _ _ h, List.length_replicate]
  · rfl

/-- Witness for C5 at a concrete fetch implementation and input. -/
theorem c5_output_length_witness :
    get_many_vectors (fun _ _ => [(7, some [3])]) [⟨"t", 7, 0, some [3]⟩] =
        .ok [some [3]] ∧
      ([some [3]] : List (Option Vec)).length =
        [(⟨"t", 7, 0, some [3]⟩ : DescriptorElement)].length :=
  ⟨by rfl,
    (c5_output_length (fun _ _ => [(7, some [3])]) [⟨"t", 7, 0, some [3]⟩]).1
      [some [3]] (by rfl)⟩

/-- C3 counterexample: a `(key, vector)` pair whose key is not among the
input uuids is not dropped — `get_many_vectors` raises `KeyError`
(`ordered_vectors[uuid_indices[uuid]]` with a plain dict), so the call
does not complete with a result list. -/
theorem c3_counterexample :
    get_many_vectors (fun _ _ => [(99, some [1])]) [⟨"t", 5, 0, some [1]⟩] =
      .error "KeyError" := by rfl

/-- C3 amended: a pair yielded by a type's batch-fetch whose key is not
among the consumed elements' uuids makes `get_many_vectors` raise
`KeyError` (aborting the call) instead of being ignored. -/
theorem c3_unknown_key_raises
    (fetch : Nat → List DescriptorElement → List (Key × Option Vec))
    (ds : List DescriptorElement) (c : Nat) (b : List DescriptorElement)
    (p : Key × Option Vec) (hmem : (c, b) ∈ batchDict ds) (hp : p ∈ fetch c b)
    (hnot : p.1 ∉ ds.map DescriptorElement.uuid) :
    get_many_vectors fetch ds = .error "KeyError" := by
  rw [get_many_vectors]
  exact runBatches_error_of_none _ _ _ _
    ⟨(c, b), hmem, p, hp, uuidIndices_none_of_not_mem ds p.1 hnot⟩

/-- Witness for the amended C3 at concrete inputs. -/
theorem c3_unknown_key_raises_witness :
    get_many_vectors (fun _ _ => [(99, some [2])]) [⟨"u", 6, 1, some [2]⟩] =
      .error "KeyError" :=
  c3_unknown_key_raises (fun _ _ => [(99, some [2])]) [⟨"u", 6, 1, some [2]⟩]
    1 [⟨"u", 6, 1, some [2]⟩] (99, some [2]) (by decide) (by decide) (by decide)

/-- C4: with a duplicated uuid, every fetched pair for that uuid is
written to the slot of its last occurrence (`uuid_indices` maps the uuid
to the last index), and an earlier occurrence's slot stays absent in any
successfully returned list. -/
theorem c4_last_occurrence_wins
    (fetch : Nat → List DescriptorElement → List (Key × Option Vec))
    (ds : List DescriptorElement) (u : Key) (i j : Nat)
    (e e' : DescriptorElement) (hij : i < j) (hi : ds.get? i = some e)
    (hj : ds.get? j = some e') (hiu : e.uuid = u) (hju : e'.uuid = u)
    (hlast : ∀ k e2, j < k → ds.get? k = some e2 → e2.uuid ≠ u) :
    alookup u (uuidIndices ds) = some j ∧
      ∀ r, get_many_vectors fetch ds = .ok r → r.get? i = some none := by
  have hluj : alookup u (uuidIndices ds) = some j :=
    uuidIndices_last ds u j e' hj hju hlast
  refine ⟨hluj, ?_⟩
  intro r h
  rw [get_many_vectors] at h
  have hni : ∀ cb ∈ batchDict ds, ∀ p ∈ fetch cb.1 cb.2,
      alookup p.1 (uuidIndices ds) ≠ some i := by
    intro cb hcb p hp hsome
    obtain ⟨e2, he2, hue2⟩ := uuidIndices_some ds p.1 i hsome
    have hse : e2 = e := by
      have h2 := he2.symm.trans hi
      injection h2
    have hpu : p.1 = u := by rw [← hue2, hse, hiu]
    rw [hpu, hluj] at hsome
    injection hsome with hsome
    omega
  rw [runBatches_untouched _ fetch _ _ r i h hni]
  obtain ⟨hil, -⟩ := List.get?_eq_some.mp hi
  simp [List.get?_eq_getElem?, List.getElem?_replicate, hil]

/-- Witness for C4: the uuid 5 appears at positions 0 and 1; the fetched
vector lands in slot 1 and slot 0 stays absent. -/
theorem c4_last_occurrence_wins_witness :
    alookup 5 (uuidIndices [⟨"a", 5, 0, some [1]⟩, ⟨"b", 5, 0, some [2]⟩]) =
        some 1 ∧
      ([none, some [9]] : List (Option Vec)).get? 0 = some none := by
  have h := c4_last_occurrence_wins (fun _ _ => [(5, some [9])])
      [⟨"a", 5, 0, some [1]⟩, ⟨"b", 5, 0, some [2]⟩] 5 0 1
      ⟨"a", 5, 0, some [1]⟩ ⟨"b", 5, 0, some [2]⟩ (by decide) rfl rfl rfl rfl
      (fun k e2 hk hke => by
        have hkl := (List.get?_eq_some.mp hke).1
        simp only [List.length_cons, List.length_nil] at hkl
        omega)
  exact ⟨h.1, h.2 [none, some [9]] rfl⟩

/-- C2: with pairwise-distinct input uuids and each class's batch-fetch
reporting only (uniquely-keyed) pairs about its own batch, the slot at
every input position `i` holds exactly what that element's class
batch-fetch reports for it — the vector, `none` if it reports `None`, and
`none` if it omits the element — whatever order the pairs come in. -/
theorem c2_order_preserving
    (fetch : Nat → List DescriptorElement → List (Key × Option Vec))
    (ds : List DescriptorElement)
    (hnd : (ds.map DescriptorElement.uuid).Nodup)
    (hsub : ∀ c b, (c, b) ∈ batchDict ds →
      ∀ p ∈ fetch c b, p.1 ∈ b.map DescriptorElement.uuid)
    (hkeys : ∀ c b, (c, b) ∈ batchDict ds → ((fetch c b).map Prod.fst).Nodup) :
    ∃ r, get_many_vectors fetch ds = .ok r ∧ r.length = ds.length ∧
      ∀ i e, ds.get? i = some e →
        r.get? i =
          some (alookup e.uuid (fetch e.cls (classBatch ds e.cls))).join := by
  have hok : ∀ cb ∈ batchDict ds, ∀ p ∈ fetch cb.1 cb.2,
      (alookup p.1 (uuidIndices ds)).isSome := by
    intro cb hcb p hp
    obtain ⟨c, b⟩ := cb
    obtain ⟨x, hxb, hxu⟩ := List.mem_map.mp (hsub c b hcb p hp)
    have hbeq := (batchDict_mem_eq ds c b hcb).1
    obtain ⟨hxds, -⟩ := classBatch_mem ds c x (hbeq ▸ hxb)
    exact uuidIndices_isSome_of_mem ds p.1
      (hxu ▸ List.mem_map_of_mem DescriptorElement.uuid hxds)
  obtain ⟨r, hr⟩ := runBatches_isSome_ok (uuidIndices ds) fetch (batchDict ds)
    (List.replicate ds.length none) hok
  refine ⟨r, by rw [get_many_vectors]; exact hr, ?_, ?_⟩
  · rw [runBatches_length _ _ _ _ _ hr, List.length_replicate]
  intro i e hie
  have hdmem : e ∈ ds := List.get?_mem hie
  have hbmem : (e.cls, classBatch ds e.cls) ∈ batchDict ds :=
    batchDict_mem_of_elem ds e hdmem
  have hidx : alookup e.uuid (uuidIndices ds) = some i := by
    refine uuidIndices_last ds e.uuid i e hie rfl ?_
    intro k e2 hik hke2 hue2
    have := nodup_uuid_get_inj ds hnd i k e e2 hie hke2 hue2.symm
    omega
  have hkey_i : ∀ c' b', (c', b') ∈ batchDict ds → ∀ p ∈ fetch c' b',
      alookup p.1 (uuidIndices ds) = some i → p.1 = e.uuid ∧ c' = e.cls := by
    intro c' b' hcb p hp hsome
    obtain ⟨e2, he2, hue2⟩ := uuidIndices_some ds p.1 i hsome
    have hse : e2 = e := by
      have h2 := he2.symm.trans hie
      injection h2
    have hpu : p.1 = e.uuid := by rw [← hue2, hse]
    obtain ⟨x, hxb, hxu⟩ := List.mem_map.mp (hsub c' b' hcb p hp)
    have hbeq := (batchDict_mem_eq ds c' b' hcb).1
    have hxcb : x ∈ classBatch ds c' := hbeq ▸ hxb
    obtain ⟨hxds, hxcls⟩ := classBatch_mem ds c' x hxcb
    have hxe : x = e :=
      List.inj_on_of_nodup_map hnd hxds hdmem (by rw [hxu, hpu])
    exact ⟨hpu, by rw [← hxcls, hxe]⟩
  obtain ⟨hil, -⟩ := List.get?_eq_some.mp hie
  cases hfl : alookup e.uuid (fetch e.cls (classBatch ds e.cls)) with
  | none =>
    have hni : ∀ cb ∈ batchDict ds, ∀ p ∈ fetch cb.1 cb.2,
        alookup p.1 (uuidIndices ds) ≠ some i := by
      intro cb hcb p hp hsome
      obtain ⟨c', b'⟩ := cb
      obtain ⟨hpu, hceq⟩ := hkey_i c' b' hcb p hp hsome
      have hbeq := (batchDict_mem_eq ds c' b' hcb).1
      rw [hbeq] at hp
      rw [hceq] at hp
      exact alookup_ne_of_none _ _ hfl p hp hpu
    rw [runBatches_untouched _ fetch _ _ r i hr hni]
    simp [List.get?_eq_getElem?, List.getElem?_replicate, hil, Option.join]
  | some ov =>
    obtain ⟨l1, l2, hsplit, -⟩ := alookup_split _ _ _ hfl
    have hl2keys : e.uuid ∉ l2.map Prod.fst :=
      not_mem_keys_right l1 l2 _ _ (by rw [← hsplit]; exact hkeys _ _ hbmem)
    obtain ⟨B1, B2, hB⟩ := List.append_of_mem hbmem
    have hknd := batchDict_keys_nodup ds
    rw [hB, List.map_append, List.map_cons, List.nodup_append] at hknd
    have hnotB1 : e.cls ∉ B1.map Prod.fst :=
      fun hm => hknd.2.2 hm (List.mem_cons_self _ _)
    have hnotB2 : e.cls ∉ B2.map Prod.fst := (List.nodup_cons.mp hknd.2.1).1
    have huB1 : ∀ cb ∈ B1, ∀ p ∈ fetch cb.1 cb.2,
        alookup p.1 (uuidIndices ds) ≠ some i := by
      intro cb hcb p hp hsome
      obtain ⟨c', b'⟩ := cb
      have hcbm : (c', b') ∈ batchDict ds := by
        rw [hB]
        exact List.mem_append_left _ hcb
      obtain ⟨-, hceq⟩ := hkey_i c' b' hcbm p hp hsome
      exact hnotB1 (hceq ▸ List.mem_map_of_mem Prod.fst hcb)
    have huB2 : ∀ cb ∈ B2, ∀ p ∈ fetch cb.1 cb.2,
        alookup p.1 (uuidIndices ds) ≠ some i := by
      intro cb hcb p hp hsome
      obtain ⟨c', b'⟩ := cb
      have hcbm : (c', b') ∈ batchDict ds := by
        rw [hB]
        exact List.mem_append_right _ (List.mem_cons_of_mem _ hcb)
      obtain ⟨-, hceq⟩ := hkey_i c' b' hcbm p hp hsome
      exact hnotB2 (hceq ▸ List.mem_map_of_mem Prod.fst hcb)
    have hl2i : ∀ p ∈ l2, alookup p.1 (uuidIndices ds) ≠ some i := by
      intro p hp hsome
      have hpf : p ∈ fetch e.cls (classBatch ds e.cls) := by
        rw [hsplit]
        exact List.mem_append_right _ (List.mem_cons_of_mem _ hp)
      obtain ⟨hpu, -⟩ := hkey_i _ _ hbmem p hpf hsome
      exact hl2keys (hpu ▸ List.mem_map_of_mem Prod.fst hp)
    have hrw := runBatches_write (uuidIndices ds) fetch B1 B2 e.cls
      (classBatch ds e.cls) l1 l2 e.uuid ov i
      (List.replicate ds.length none) r hsplit hidx hl2i huB1 huB2
      (by rw [List.length_replicate]; exact hil) (by rw [← hB]; exact hr)
    rw [hrw]
    rfl


/-- Witness for C2: concrete mixed-class input, fetch pairs arriving out
of order, one vector reported absent. -/
theorem c2_order_preserving_witness :
    ∃ r, get_many_vectors wfetch wds = .ok r ∧ r.length = wds.length ∧
      ∀ i e, wds.get? i = some e →
        r.get? i =
          some (alookup e.uuid (wfetch e.cls (classBatch wds e.cls))).join := by
  refine c2_order_preserving wfetch wds (by decide) ?_ ?_
  · intro c b hcb p hp
    rw [show batchDict wds = [(0, [wd0, wd1]), (1, [wd2])] from rfl] at hcb
    rcases List.mem_cons.mp hcb with h1 | hcb
    · rw [Prod.mk.injEq] at h1
      obtain ⟨rfl, rfl⟩ := h1
      revert p
      decide
    · rcases List.mem_cons.mp hcb with h1 | h1
      · rw [Prod.mk.injEq] at h1
        obtain ⟨rfl, rfl⟩ := h1
        revert p
        decide
      · exact absurd h1 (List.not_mem_nil _)
  · intro c b hcb
    rw [show batchDict wds = [(0, [wd0, wd1]), (1, [wd2])] from rfl] at hcb
    rcases List.mem_cons.mp hcb with h1 | hcb
    · rw [Prod.mk.injEq] at h1
      obtain ⟨rfl, rfl⟩ := h1
      decide
    · rcases List.mem_cons.mp hcb with h1 | h1
      · rw [Prod.mk.injEq] at h1
        obtain ⟨rfl, rfl⟩ := h1
        decide
      · exact absurd h1 (List.not_mem_nil _)

theorem cache_table_synced (s : MemoryDescriptorSet) (st : Option SBytes)
    (hc : s.cache_element = some st) :
    (s.cache_table).cache_synced := by
  unfold MemoryDescriptorSet.cache_table
  rw [hc]
  exact ⟨.pickled s.table, rfl, rfl⟩

/-- C8: with a cache store configured, every mutating operation leaves the
store non-empty and holding exactly the current table (write-through,
once per call). Modelled from the spec (`MemoryDescriptorSet` is absent
from the sources). -/
theorem c8_write_through (s : MemoryDescriptorSet) (st : Option SBytes)
    (hc : s.cache_element = some st) (d : DescriptorElement)
    (ds : List DescriptorElement) (u : Key) (us : List Key) :
    (s.add_descriptor d).cache_synced ∧
      (s.add_many_descriptors ds).cache_synced ∧
      (∀ s', s.remove_descriptor u = .ok s' → s'.cache_synced) ∧
      (∀ s', s.remove_many_descriptors us = .ok s' → s'.cache_synced) ∧
      s.clear.cache_synced := by
  refine ⟨cache_table_synced _ st hc, cache_table_synced _ st hc, ?_, ?_,
    cache_table_synced _ st hc⟩
  · intro s' h
    unfold MemoryDescriptorSet.remove_descriptor at h
    by_cases hk : hasKey u s.table
    · rw [if_pos hk] at h
      injection h with h
      rw [← h]
      exact cache_table_synced _ st hc
    · rw [if_neg hk] at h
      exact absurd h (by simp)
  · intro s' h
    unfold MemoryDescriptorSet.remove_many_descriptors at h
    by_cases hk : us.all (fun u => hasKey u s.table)
    · rw [if_pos hk] at h
      injection h with h
      rw [← h]
      exact cache_table_synced _ st hc
    · rw [if_neg hk] at h
      exact absurd h (by simp)

/-- Witness for C8 at a concrete cached set and concrete mutations. -/
theorem c8_write_through_witness :
    ((⟨[(1, ⟨"t", 1, 0, some [1]⟩)], some none⟩ :
        MemoryDescriptorSet).add_descriptor ⟨"t", 2, 0, some [2]⟩).cache_synced ∧
      ((⟨[(1, ⟨"t", 1, 0, some [1]⟩)], some none⟩ :
          MemoryDescriptorSet).add_many_descriptors
        [⟨"t", 3, 0, some [3]⟩]).cache_synced ∧
      (∀ s', (⟨[(1, ⟨"t", 1, 0, some [1]⟩)], some none⟩ :
          MemoryDescriptorSet).remove_descriptor 1 = .ok s' → s'.cache_synced) ∧
      (∀ s', (⟨[(1, ⟨"t", 1, 0, some [1]⟩)], some none⟩ :
          MemoryDescriptorSet).remove_many_descriptors [1] = .ok s' →
        s'.cache_synced) ∧
      (⟨[(1, ⟨"t", 1, 0, some [1]⟩)], some none⟩ :
        MemoryDescriptorSet).clear.cache_synced :=
  c8_write_through ⟨[(1, ⟨"t", 1, 0, some [1]⟩)], some none⟩ none rfl
    ⟨"t", 2, 0, some [2]⟩ [⟨"t", 3, 0, some [3]⟩] 1 [1]

theorem dictRemove_dictRemove_eq_filter {K V : Type} [DecidableEq K]
    (k1 k2 : K) (m : List (K × V)) :
    dictRemove k2 (dictRemove k1 m) =
      m.filter (fun p => decide (p.1 ≠ k1 ∧ p.1 ≠ k2)) := by
  induction m with
  | nil => rfl
  | cons p rest ih =>
    rw [dictRemove]
    by_cases h1 : p.1 = k1
    · have hp : decide (p.1 ≠ k1 ∧ p.1 ≠ k2) = false := by simp [h1]
      rw [if_pos h1, List.filter_cons, hp, if_neg (by simp)]
      exact ih
    · rw [if_neg h1, dictRemove]
      by_cases h2 : p.1 = k2
      · have hp : decide (p.1 ≠ k1 ∧ p.1 ≠ k2) = false := by simp [h2]
        rw [if_pos h2, List.filter_cons, hp, if_neg (by simp)]
        exact ih
      · have hp : decide (p.1 ≠ k1 ∧ p.1 ≠ k2) = true := by simp [h1, h2]
        rw [if_neg h2, List.filter_cons, hp, if_pos rfl, ih]

theorem hasKey_dictRemove_ne {K V : Type} [DecidableEq K] (k k' : K)
    (m : List (K × V)) (h : k' ≠ k) :
    hasKey k' (dictRemove k m) = hasKey k' m := by
  induction m with
  | nil => rfl
  | cons p rest ih =>
    rw [dictRemove]
    by_cases hp : p.1 = k
    · rw [if_pos hp, ih, hasKey]
      have hne : ¬(p.1 = k') := fun he => h (he ▸ hp)
      simp [hne]
    · rw [if_neg hp, hasKey, hasKey, ih]

theorem not_mem_filter_fst {K V : Type} [DecidableEq K] (k1 k2 : K)
    (m : List (K × V)) :
    k1 ∉ (m.filter (fun p => decide (p.1 ≠ k1 ∧ p.1 ≠ k2))).map Prod.fst ∧
      k2 ∉ (m.filter (fun p => decide (p.1 ≠ k1 ∧ p.1 ≠ k2))).map Prod.fst := by
  constructor <;>
  · intro hm
    obtain ⟨p, hp, hpk⟩ := List.mem_map.mp hm
    obtain ⟨-, hpred⟩ := List.mem_filter.mp hp
    simp only [decide_eq_true_eq] at hpred
    first
      | exact hpred.1 hpk
      | exact hpred.2 hpk

/-- C9: `get_default_config` returns the parent discovery result with the
identity parameters `type_str` and `uuid` deleted (all other entries kept
in place), so neither key occurs in the result. -/
theorem c9_default_config_strips (parent : List (String × PyVal))
    (h1 : "type_str" ∈ parent.map Prod.fst)
    (h2 : "uuid" ∈ parent.map Prod.fst) :
    ∃ dc, get_default_config parent = .ok dc ∧
      dc = parent.filter (fun p => decide (p.1 ≠ "type_str" ∧ p.1 ≠ "uuid")) ∧
      "type_str" ∉ dc.map Prod.fst ∧ "uuid" ∉ dc.map Prod.fst := by
  have hk1 : hasKey "type_str" parent = true := (hasKey_iff _ _).mpr h1
  have hk2 : hasKey "uuid" (dictRemove "type_str" parent) = true := by
    rw [hasKey_dictRemove_ne _ _ _ (by decide)]
    exact (hasKey_iff _ _).mpr h2
  refine ⟨dictRemove "uuid" (dictRemove "type_str" parent), ?_, ?_, ?_, ?_⟩
  · have hd1 : dictDel parent "type_str" = .ok (dictRemove "type_str" parent) := by
      unfold dictDel
      rw [if_pos hk1]
    have hd2 : dictDel (dictRemove "type_str" parent) "uuid" =
        .ok (dictRemove "uuid" (dictRemove "type_str" parent)) := by
      unfold dictDel
      rw [if_pos hk2]
    unfold get_default_config
    rw [hd1]
    exact hd2
  · exact dictRemove_dictRemove_eq_filter _ _ parent
  · rw [dictRemove_dictRemove_eq_filter]
    exact (not_mem_filter_fst _ _ parent).1
  · rw [dictRemove_dictRemove_eq_filter]
    exact (not_mem_filter_fst _ _ parent).2

/-- Witness for C9 at a concrete parent configuration dictionary. -/
theorem c9_default_config_strips_witness :
    ∃ dc, get_default_config
        [("type_str", PyVal.str "x"), ("uuid", PyVal.key 4), ("a", PyVal.num 5)] =
        .ok dc ∧
      dc = [("type_str", PyVal.str "x"), ("uuid", PyVal.key 4),
          ("a", PyVal.num 5)].filter
        (fun p => decide (p.1 ≠ "type_str" ∧ p.1 ≠ "uuid")) ∧
      "type_str" ∉ dc.map Prod.fst ∧ "uuid" ∉ dc.map Prod.fst :=
  c9_default_config_strips
    [("type_str", PyVal.str "x"), ("uuid", PyVal.key 4), ("a", PyVal.num 5)]
    (by decide) (by decide)

theorem mergeCopy_append {K V : Type} [DecidableEq K] (config : List (K × V))
    (p : K × V) :
    mergeCopy (config ++ [p]) = dictSet (mergeCopy config) p.1 p.2 := by
  unfold mergeCopy
  rw [List.foldl_append]
  simp only [List.foldl_cons, List.foldl_nil]

theorem alookup_mergeCopy {K V : Type} [DecidableEq K] (config : List (K × V))
    (hnd : (config.map Prod.fst).Nodup) (k : K) :
    alookup k (mergeCopy config) = alookup k config := by
  induction config using List.reverseRecOn with
  | nil => rfl
  | append_singleton config p ih =>
    obtain ⟨pk, pv⟩ := p
    rw [List.map_append, List.map_cons, List.map_nil, List.nodup_append] at hnd
    rw [mergeCopy_append]
    by_cases hk : k = pk
    · rw [hk, alookup_dictSet_self]
      have hnk : hasKey pk config = false := by
        cases hhk : hasKey pk config with
        | false => rfl
        | true =>
          exact absurd ((hasKey_iff _ _).mp hhk)
            (fun hm => hnd.2.2 hm (List.mem_cons_self _ _))
      exact (alookup_append_single config pk pv hnk).symm
    · rw [alookup_dictSet_ne _ _ _ _ hk, ih hnd.1,
        alookup_append_single_ne _ _ _ _ hk]

/-- C10: the configuration dictionary `from_config` actually uses maps
`type_str` and `uuid` to the given runtime arguments (overriding whatever
`config_dict` held under those keys) and keeps every other entry of
`config_dict` unchanged; it is a fresh copy built from an empty dict, so
`config_dict` itself is untouched. -/
theorem c10_from_config_dict (config : List (String × PyVal)) (t : String)
    (u : Key) (hnd : (config.map Prod.fst).Nodup) :
    alookup "type_str" (from_config_dict config t u) = some (.str t) ∧
      alookup "uuid" (from_config_dict config t u) = some (.key u) ∧
      ∀ k, k ≠ "type_str" → k ≠ "uuid" →
        alookup k (from_config_dict config t u) = alookup k config := by
  refine ⟨?_, ?_, ?_⟩
  · rw [from_config_dict, alookup_dictSet_ne _ _ _ _ (by decide),
      alookup_dictSet_self]
  · rw [from_config_dict, alookup_dictSet_self]
  · intro k hkt hku
    rw [from_config_dict, alookup_dictSet_ne _ _ _ _ hku,
      alookup_dictSet_ne _ _ _ _ hkt, alookup_mergeCopy config hnd]

/-- Witness for C10 at a concrete configuration dictionary. -/
theorem c10_from_config_dict_witness :
    alookup "type_str"
        (from_config_dict [("type_str", PyVal.str "old"), ("a", PyVal.num 5)]
          "new" 9) = some (.str "new") ∧
      alookup "uuid"
        (from_config_dict [("type_str", PyVal.str "old"), ("a", PyVal.num 5)]
          "new" 9) = some (.key 9) ∧
      ∀ k, k ≠ "type_str" → k ≠ "uuid" →
        alookup k
          (from_config_dict [("type_str", PyVal.str "old"), ("a", PyVal.num 5)]
            "new" 9) =
        alookup k [("type_str", PyVal.str "old"), ("a", PyVal.num 5)] :=
  c10_from_config_dict [("type_str", PyVal.str "old"), ("a", PyVal.num 5)]
    "new" 9 (by decide)

end SMQTK
